import Mathlib

/-!
Verification of the talkcleaner background-task model (src/ktalk.py).

The file embeds the three worker classes of the source — `SearchWorker.run`,
`CompressionWorker.run` (with `read_file`), and `DeletionWorker.run` — as pure
Lean functions over explicit inputs:

* file contents and filesystem effects are passed in as functions
  (`content`, `disk`, `removeRes`), so a read/remove result is an
  `Except`/`ReadRes` value;
* the advisory cancellation flag is modelled by a threshold `ca : Option Nat`
  over the sequence of flag checks the code performs: check number `k` (in
  execution order) observes the flag set iff `ca = some c` with `c ≤ k`.
  Since the flag is only ever set (never cleared), every possible observation
  sequence corresponds to such a threshold;
* Qt signal emissions become elements of an event list, in emission order;
* wall-clock readings of the deletion worker become a function
  `el : Nat → ℚ` giving the elapsed time observed after the d-th removal.

The `MainWindow` enable/disable logic for the task-triggering controls is
embedded as a small state machine (`UI`, `stepUI`).
-/

/-- Python `needle in hay` on character lists: some suffix of `hay` has
`needle` as a prefix (true for the empty needle, as in Python). -/
def listContains (n : List Char) : List Char → Bool
  | [] => n.isEmpty
  | c :: t => n.isPrefixOf (c :: t) || listContains n t

/-- Python `needle in hay` on strings. -/
def pyIn (needle hay : String) : Bool := listContains needle.data hay.data

/-- Python `str.lower()` (character-wise, as for the ASCII data at hand). -/
def pyLower (s : String) : String := String.mk (s.data.map Char.toLower)

/-- Python `str.rstrip()`: drop trailing whitespace. -/
def pyRstrip (s : String) : String :=
  String.mk (s.data.reverse.dropWhile Char.isWhitespace).reverse

/-- Case-insensitive substring test, the way the workers perform it:
the term is lowered once, each candidate is lowered at use. -/
def icontains (term s : String) : Bool := pyIn (pyLower term) (pyLower s)

/-- Observation of the `_cancelled` flag at check number `k`:
set iff the threshold `ca` is `some c` with `c ≤ k`. -/
def cancChk (ca : Option Nat) (k : Nat) : Bool :=
  match ca with
  | none => false
  | some c => decide (c ≤ k)

/-- `[s, s+1, ..., s+n-1]`. -/
def natsFrom : Nat → Nat → List Nat
  | _, 0 => []
  | s, n + 1 => s :: natsFrom (s + 1) n

/-- A list of naturals is non-decreasing. -/
def nondecr : List Nat → Bool
  | [] => true
  | [_] => true
  | a :: b :: t => decide (a ≤ b) && nondecr (b :: t)

/-- The four event-stream guarantees of the spec's Background Task Runner:
progress currents (extracted by `cur?`) are non-decreasing and bounded by
`total`, exactly one terminal event (recognized by `isT`) is emitted, and the
last event is terminal. -/
def progOK {α : Type} (curOf : α → Option Nat) (isT : α → Bool) (total : Nat)
    (evs : List α) : Bool :=
  nondecr (evs.filterMap curOf) &&
  (evs.filterMap curOf).all (fun c => decide (c ≤ total)) &&
  (evs.countP isT == 1) &&
  (match evs.getLast? with
   | some e => isT e
   | none => false)

/-! ## Search worker (`SearchWorker.run`, src/ktalk.py lines 43-68) -/

/-- One entry of `MainWindow.file_items` as handed to the search: the
enumerator (`check_folder_and_list_files`) stores the tree-item display text
(`displayName`, the relative path for nested files) but appends
`os.path.basename(file)` as the name passed to the worker (`baseName`). -/
structure SFile where
  fullPath : String
  displayName : String
  baseName : String
deriving Repr, DecidableEq

/-- Result of `open(full_path).readlines`-style iteration: either all lines
are yielded (`ok`), or an exception is raised after yielding a prefix of the
lines (`failAfter`, e.g. `FileNotFoundError` with no lines, or a
`UnicodeDecodeError` partway through a file). -/
inductive ReadRes where
  | ok (lines : List String)
  | failAfter (lines : List String)
deriving Repr, DecidableEq

/-- Events emitted by `SearchWorker`: it has exactly two signals,
`progress(int, int)` and `finished(list)`; there is no error signal. -/
inductive SEvent where
  | progress (cur tot : Nat)
  | finished (results : List (Bool × List (Nat × String)))
deriving Repr, DecidableEq

def SEvent.curOf : SEvent → Option Nat
  | .progress c _ => some c
  | _ => none

def SEvent.isTerminal : SEvent → Bool
  | .finished _ => true
  | _ => false

/-- The inner `for num, line in enumerate(f, 1)` loop: before each yielded
line the flag is checked (`break` on set); a line whose lowered text contains
the lowered term contributes `(num, line.rstrip())`.  Returns the collected
matches, the next check number, and whether the loop was broken. -/
def scanLines (st : String) (ca : Option Nat) :
    List String → Nat → Nat → List (Nat × String) × Nat × Bool
  | [], _, k => ([], k, false)
  | l :: ls, num, k =>
    if cancChk ca k then ([], k + 1, true)
    else
      let rest := scanLines st ca ls (num + 1) (k + 1)
      (if pyIn st (pyLower l) then (num, pyRstrip l) :: rest.1 else rest.1, rest.2)

/-- The body of `SearchWorker.run` for one file (lines 49-66): the name check
uses `baseName` (what `start_search` passed in), the content scan collects
line matches; on a read exception the `if line_matches: match = True` line is
skipped (it sits inside the `try`), unless a cancellation `break` left the
loop before the exception was raised. -/
def searchFile (st : String) (ca : Option Nat) (content : String → ReadRes)
    (f : SFile) (k : Nat) : (Bool × List (Nat × String)) × Nat :=
  let nameMatch := pyIn st (pyLower f.baseName)
  match content f.fullPath with
  | .ok lines =>
      let r := scanLines st ca lines 1 k
      ((nameMatch || !r.1.isEmpty, r.1), r.2.1)
  | .failAfter lines =>
      let r := scanLines st ca lines 1 k
      ((nameMatch || (r.2.2 && !r.1.isEmpty), r.1), r.2.1)

/-- The outer loop of `SearchWorker.run`: flag check at the top of each
iteration (`break` on set), then the per-file work, appending the result and
emitting `progress(i+1, total)`. -/
def searchLoop (st : String) (ca : Option Nat) (content : String → ReadRes)
    (total : Nat) :
    List SFile → Nat → Nat → List (Bool × List (Nat × String)) × List SEvent
  | [], _, _ => ([], [])
  | f :: fs, i, k =>
    if cancChk ca k then ([], [])
    else
      let r := searchFile st ca content f (k + 1)
      let rest := searchLoop st ca content total fs (i + 1) r.2
      (r.1 :: rest.1, SEvent.progress (i + 1) total :: rest.2)

/-- The `results` list that `SearchWorker.run` passes to `finished`
(truncated if the run was cancelled). -/
def searchResults (files : List SFile) (content : String → ReadRes)
    (term : String) (ca : Option Nat) : List (Bool × List (Nat × String)) :=
  (searchLoop (pyLower term) ca content files.length files 0 0).1

/-- `SearchWorker.run`: the full emitted event sequence — progress events
followed by the single unconditional `finished(results)`. -/
def searchRun (files : List SFile) (content : String → ReadRes)
    (term : String) (ca : Option Nat) : List SEvent :=
  (searchLoop (pyLower term) ca content files.length files 0 0).2
    ++ [SEvent.finished (searchResults files content term ca)]

/-- The line matches an uncancelled scan collects from a list of lines
(1-indexed, matching lines recorded as `(number, rstripped text)`). -/
def collectMatches (st : String) : Nat → List String → List (Nat × String)
  | _, [] => []
  | num, l :: ls =>
    if pyIn st (pyLower l) then (num, pyRstrip l) :: collectMatches st (num + 1) ls
    else collectMatches st (num + 1) ls

/-- Per-file search result of an uncancelled run. -/
def fileResult (st : String) (content : String → ReadRes) (f : SFile) :
    Bool × List (Nat × String) :=
  match content f.fullPath with
  | .ok lines =>
      (pyIn st (pyLower f.baseName) || !(collectMatches st 1 lines).isEmpty,
       collectMatches st 1 lines)
  | .failAfter lines =>
      (pyIn st (pyLower f.baseName), collectMatches st 1 lines)

/-! ## Compression worker (`CompressionWorker`, src/ktalk.py lines 71-120) -/

/-- Events of `CompressionWorker`: `progress(int, int)`, `finished(str)`,
`error(str)`. -/
inductive CEvent where
  | progress (cur tot : Nat)
  | finished (path : String)
  | error (msg : String)
deriving Repr, DecidableEq

def CEvent.curOf : CEvent → Option Nat
  | .progress c _ => some c
  | _ => none

def CEvent.isTerminal : CEvent → Bool
  | .finished _ => true
  | .error _ => true
  | _ => false

/-- The cancellation message raised throughout `CompressionWorker`. -/
def cancelMsg : String := "압축 작업이 취소되었습니다."

/-- `CompressionWorker.read_file`: raises the cancellation message if the
flag is set, otherwise wraps a read failure with the offending path. -/
def read_file (cancelled : Bool) (fullPath arcname : String)
    (disk : String → Except String (List Nat)) :
    Except String (String × List Nat) :=
  if cancelled then .error cancelMsg
  else
    match disk fullPath with
    | .ok data => .ok (arcname, data)
    | .error e => .error ("파일 읽기 실패: " ++ fullPath ++ " - " ++ e)

/-- The `as_completed` loop of `CompressionWorker.run` plus the flag check
after the pool closes: `rs` lists the futures' results in completion order;
check `k` precedes consuming each result, and the final check (at
`k + rs.length`) is the one after the `with ThreadPoolExecutor` block.
Returns the emitted progress events and either the collected
`(arcname, data)` list or the first raised error. -/
def collectPhase (ca : Option Nat) (total : Nat) :
    List (Except String (String × List Nat)) → Nat → Nat →
    List CEvent × Except String (List (String × List Nat))
  | [], k, _ =>
    if cancChk ca k then ([], .error cancelMsg) else ([], .ok [])
  | r :: rs, k, count =>
    if cancChk ca k then ([], .error cancelMsg)
    else
      match r with
      | .error e => ([], .error e)
      | .ok entry =>
          let rest := collectPhase ca total rs (k + 1) (count + 1)
          (CEvent.progress (count + 1) total :: rest.1, rest.2.map (entry :: ·))

/-- The `zipfile.ZipFile ... writestr` loop: one flag check before each
entry; returns the entries actually written and whether the loop completed.
The archive file exists on disk from the moment this phase starts. -/
def writePhase (ca : Option Nat) :
    List (String × List Nat) → Nat → List (String × List Nat) × Bool
  | [], _ => ([], true)
  | e :: es, k =>
    if cancChk ca k then ([], false)
    else
      let rest := writePhase ca es (k + 1)
      (e :: rest.1, rest.2)

/-- Outcome of one `CompressionWorker.run`: the emitted events and the state
of the destination path on disk — `none` if the archive was never opened for
writing, `some written` (possibly partial) once `zipfile.ZipFile(..., 'w')`
has created it. -/
structure COut where
  events : List CEvent
  zipFile : Option (List (String × List Nat))
deriving Repr, DecidableEq

/-- `CompressionWorker.run`: collect all reads, then — only if no exception
was raised — open the archive and write the entries, with a flag check
before each write; any raised exception is reported through `error`. -/
def compressionRun (rs : List (Except String (String × List Nat)))
    (ca : Option Nat) (zipPath : String) : COut :=
  let collected := collectPhase ca rs.length rs 0 0
  match collected.2 with
  | .error e => ⟨collected.1 ++ [.error e], none⟩
  | .ok entries =>
      let w := writePhase ca entries (rs.length + 1)
      if w.2 then ⟨collected.1 ++ [.finished zipPath], some w.1⟩
      else ⟨collected.1 ++ [.error cancelMsg], some w.1⟩

/-! ## Deletion worker (`DeletionWorker`, src/ktalk.py lines 123-153) -/

/-- Events of `DeletionWorker`: `progress(int, int, float, float, float)`,
`finished()`, `error(str)`; the three floats are modelled as rationals. -/
inductive DEvent where
  | progress (deleted total : Nat) (percent elapsed remaining : ℚ)
  | finished
  | error (msg : String)
deriving Repr, DecidableEq

def DEvent.curOf : DEvent → Option Nat
  | .progress d _ _ _ _ => some d
  | _ => none

def DEvent.isTerminal : DEvent → Bool
  | .finished => true
  | .error _ => true
  | _ => false

/-- The progress event built after the `d`-th successful removal:
`percent = deleted/total*100`, `avg = elapsed/deleted if deleted else 0`,
`remaining = avg * (total - deleted)` (lines 147-152). -/
def dProg (total : Nat) (el : Nat → ℚ) (d : Nat) : DEvent :=
  DEvent.progress d total ((d : ℚ) / (total : ℚ) * 100) (el d)
    ((if d = 0 then 0 else el d / (d : ℚ)) * ((total - d : ℕ) : ℚ))

/-- The loop of `DeletionWorker.run`: flag check at the top of each iteration
(`break` on set, falling through to `finished`), `os.remove` via `removeRes`,
an `error` emission and `return` on the first failure, a progress event after
each success. -/
def deleteLoop (removeRes : String → Except String Unit) (el : Nat → ℚ)
    (ca : Option Nat) (total : Nat) :
    List String → Nat → List DEvent × List String
  | [], _ => ([DEvent.finished], [])
  | p :: ps, i =>
    if cancChk ca i then ([DEvent.finished], [])
    else
      match removeRes p with
      | .error e => ([DEvent.error ("파일 삭제 오류: " ++ p ++ " - " ++ e)], [])
      | .ok _ =>
          let rest := deleteLoop removeRes el ca total ps (i + 1)
          (dProg total el (i + 1) :: rest.1, p :: rest.2)

/-- `DeletionWorker.run`: returns the emitted events and the list of paths
actually removed (in order). -/
def deletionRun (paths : List String) (removeRes : String → Except String Unit)
    (el : Nat → ℚ) (ca : Option Nat) : List DEvent × List String :=
  deleteLoop removeRes el ca paths.length paths 0

/-- A progress event whose `deleted` count is zero (the situation in which
the remaining-time quotient would have divisor zero). -/
def zeroCompletedProgress : DEvent → Bool
  | .progress d _ _ _ _ => decide (d = 0)
  | _ => false

/-- The claim that some delete run evaluates the remaining-time computation
with `completed = 0`, i.e. emits a progress event with `deleted = 0`. -/
def C9claim : Prop :=
  ∃ (paths : List String) (removeRes : String → Except String Unit)
    (el : Nat → ℚ) (ca : Option Nat),
    ((deletionRun paths removeRes el ca).1.any zeroCompletedProgress) = true

/-! ## Interface enablement (`MainWindow.start_search`, `compress_files`,
`start_deletion`, src/ktalk.py lines 394-415, 453-493, 555-573) -/

inductive WKind where
  | search
  | compress
  | delete
deriving Repr, DecidableEq

/-- Enabled state of the task-triggering controls and the multiset of
currently running workers.  `searchBtn` is `search_button`, `compressBtn` is
`btn_compress`, `deleteBtns` stands for `btn_clear_all`/`btn_clear_selected`
(always toggled together). -/
structure UI where
  searchBtn : Bool
  compressBtn : Bool
  deleteBtns : Bool
  workers : List WKind
deriving Repr, DecidableEq

def initUI : UI := ⟨true, true, true, []⟩

/-- User actions on the triggering controls.  A click on a disabled button is
a no-op; `pressEnterSearch` is the `returnPressed` signal of the always
enabled search field, which is connected to `start_search` directly. -/
inductive UAction where
  | clickSearchBtn
  | pressEnterSearch
  | clickCompressBtn
  | clickDeleteBtn
  | finishSearch
  | finishCompress
  | finishDelete
deriving Repr, DecidableEq

/-- `start_search` (disables only `search_button`). -/
def startSearchUI (s : UI) : UI :=
  { s with searchBtn := false, workers := .search :: s.workers }

/-- One interface step.  Each start routine disables only its own kind's
button(s); each finish handler re-enables them and retires one worker. -/
def stepUI : UAction → UI → UI
  | .clickSearchBtn, s => if s.searchBtn then startSearchUI s else s
  | .pressEnterSearch, s => startSearchUI s
  | .clickCompressBtn, s =>
      if s.compressBtn then
        { s with compressBtn := false, workers := .compress :: s.workers }
      else s
  | .clickDeleteBtn, s =>
      if s.deleteBtns then
        { s with deleteBtns := false, workers := .delete :: s.workers }
      else s
  | .finishSearch, s => { s with searchBtn := true, workers := s.workers.erase .search }
  | .finishCompress, s => { s with compressBtn := true, workers := s.workers.erase .compress }
  | .finishDelete, s => { s with deleteBtns := true, workers := s.workers.erase .delete }

def runUI (acts : List UAction) (s : UI) : UI :=
  acts.foldl (fun st a => stepUI a st) s

/-- Removal outcome used by the C7 witness: removing "b" fails. -/
def rrW : String → Except String Unit :=
  fun q => if q = "b" then Except.error "denied" else Except.ok ()

/-- Contents used by the C8 witness. -/
def contentW : String → List Nat :=
  fun p => if p = "p1" then [1] else [2]

/-! ## Generic event-list lemmas -/

theorem lastAppendSingle {α : Type} : ∀ (l : List α) (t : α),
    (l ++ [t]).getLast? = some t := by
  intro l t
  induction l with
  | nil => rfl
  | cons a l ih =>
    rw [List.cons_append]
    cases h : l ++ [t] with
    | nil => exact absurd h (by simp)
    | cons b l2 => rw [List.getLast?_cons_cons, ← h, ih]

theorem nondecr_natsFrom : ∀ (n s : Nat), nondecr (natsFrom s n) = true := by
  intro n
  induction n with
  | zero => intro s; rfl
  | succ n ih =>
    intro s
    cases n with
    | zero => rfl
    | succ m =>
      show (decide (s ≤ s + 1) && nondecr (natsFrom (s + 1) (m + 1))) = true
      rw [ih (s + 1)]
      simp

theorem mem_natsFrom_lt : ∀ (n s x : Nat), x ∈ natsFrom s n → x < s + n := by
  intro n
  induction n with
  | zero => intro s x h; simp [natsFrom] at h
  | succ n ih =>
    intro s x h
    simp only [natsFrom, List.mem_cons] at h
    rcases h with h | h
    · omega
    · have := ih (s + 1) x h
      omega

theorem mem_natsFrom_ge : ∀ (n s x : Nat), x ∈ natsFrom s n → s ≤ x := by
  intro n
  induction n with
  | zero => intro s x h; simp [natsFrom] at h
  | succ n ih =>
    intro s x h
    simp only [natsFrom, List.mem_cons] at h
    rcases h with h | h
    · omega
    · have := ih (s + 1) x h
      omega

theorem filterMap_shape {α : Type} (curOf : α → Option Nat) (mk : Nat → α)
    (hmk : ∀ c, curOf (mk c) = some c) (t : α) (ht : curOf t = none) :
    ∀ l : List Nat, ((l.map mk ++ [t]).filterMap curOf) = l := by
  intro l
  induction l with
  | nil => simp [List.filterMap_cons, ht]
  | cons a l ih => simp [List.filterMap_cons, hmk, ih]

theorem countP_shape {α : Type} (isT : α → Bool) (mk : Nat → α)
    (hmkT : ∀ c, isT (mk c) = false) (t : α) (htT : isT t = true) :
    ∀ l : List Nat, (l.map mk ++ [t]).countP isT = 1 := by
  intro l
  induction l with
  | nil => simp [List.countP_cons, htT]
  | cons a l ih => simp [List.countP_cons, hmkT, ih]

theorem progOK_shape {α : Type} (curOf : α → Option Nat) (isT : α → Bool) (total : Nat)
    (mk : Nat → α) (hmk : ∀ c, curOf (mk c) = some c) (hmkT : ∀ c, isT (mk c) = false)
    (t : α) (ht : curOf t = none) (htT : isT t = true)
    (n : Nat) (hn : n ≤ total) :
    progOK curOf isT total ((natsFrom 1 n).map mk ++ [t]) = true := by
  unfold progOK
  rw [filterMap_shape curOf mk hmk t ht, countP_shape isT mk hmkT t htT,
    lastAppendSingle, nondecr_natsFrom]
  simp only [Bool.true_and, Bool.and_eq_true, List.all_eq_true, decide_eq_true_eq]
  refine ⟨⟨fun c hc => ?_, rfl⟩, htT⟩
  have := mem_natsFrom_lt n 1 c hc
  omega

/-! ## Search characterizations -/

theorem scanLines_none (st : String) :
    ∀ (lines : List String) (num k : Nat),
      scanLines st none lines num k = (collectMatches st num lines, k + lines.length, false) := by
  intro lines
  induction lines with
  | nil => intro num k; rfl
  | cons l ls ih =>
    intro num k
    show (if pyIn st (pyLower l) then _ :: (scanLines st none ls (num + 1) (k + 1)).1
          else (scanLines st none ls (num + 1) (k + 1)).1,
          (scanLines st none ls (num + 1) (k + 1)).2) = _
    rw [ih (num + 1) (k + 1)]
    simp only [collectMatches, List.length_cons]
    have harith : k + 1 + ls.length = k + (ls.length + 1) := by omega
    rw [harith]

theorem searchFile_none (st : String) (content : String → ReadRes) (f : SFile) (k : Nat) :
    (searchFile st none content f k).1 = fileResult st content f := by
  unfold searchFile fileResult
  cases content f.fullPath with
  | ok lines => simp [scanLines_none]
  | failAfter lines => simp [scanLines_none]

theorem searchLoop_none_results (st : String) (content : String → ReadRes) (total : Nat) :
    ∀ (fs : List SFile) (i k : Nat),
      (searchLoop st none content total fs i k).1 = fs.map (fileResult st content) := by
  intro fs
  induction fs with
  | nil => intro i k; rfl
  | cons f fs ih =>
    intro i k
    show ((searchFile st none content f (k + 1)).1 :: _, _).1 = _
    simp only [List.map_cons, searchFile_none]
    rw [ih]

theorem searchLoop_events (st : String) (ca : Option Nat) (content : String → ReadRes)
    (total : Nat) :
    ∀ (fs : List SFile) (i k : Nat), ∃ n, n ≤ fs.length ∧
      (searchLoop st ca content total fs i k).2
        = (natsFrom (i + 1) n).map (fun c => SEvent.progress c total) := by
  intro fs
  induction fs with
  | nil => intro i k; exact ⟨0, by simp, rfl⟩
  | cons f fs ih =>
    intro i k
    by_cases h : cancChk ca k = true
    · exact ⟨0, by simp, by simp [searchLoop, h, natsFrom]⟩
    · obtain ⟨n, hn, he⟩ := ih (i + 1) (searchFile st ca content f (k + 1)).2
      refine ⟨n + 1, by simp; omega, ?_⟩
      simp only [searchLoop, h, Bool.false_eq_true, if_false, natsFrom, List.map_cons]
      rw [he]

theorem collectMatches_any (st : String) :
    ∀ (lines : List String) (num : Nat),
      (!(collectMatches st num lines).isEmpty) = lines.any (fun l => pyIn st (pyLower l)) := by
  intro lines
  induction lines with
  | nil => intro num; rfl
  | cons l ls ih =>
    intro num
    by_cases h : pyIn st (pyLower l) = true
    · simp [collectMatches, h]
    · simp only [Bool.not_eq_true] at h
      simp [collectMatches, h, ih]

/-! ## Compression characterizations -/

theorem collectPhase_events (ca : Option Nat) (total : Nat) :
    ∀ (rs : List (Except String (String × List Nat))) (k count : Nat),
      ∃ n, n ≤ rs.length ∧
        (collectPhase ca total rs k count).1
          = (natsFrom (count + 1) n).map (fun c => CEvent.progress c total) := by
  intro rs
  induction rs with
  | nil =>
    intro k count
    refine ⟨0, by simp, ?_⟩
    by_cases h : cancChk ca k = true <;> simp [collectPhase, h, natsFrom]
  | cons r rs ih =>
    intro k count
    by_cases h : cancChk ca k = true
    · exact ⟨0, by simp, by simp [collectPhase, h, natsFrom]⟩
    · cases r with
      | error e => exact ⟨0, by simp, by simp [collectPhase, h, natsFrom]⟩
      | ok entry =>
        obtain ⟨n, hn, he⟩ := ih (k + 1) (count + 1)
        refine ⟨n + 1, by simp; omega, ?_⟩
        simp only [collectPhase, h, Bool.false_eq_true, if_false, natsFrom, List.map_cons]
        rw [he]

theorem collectPhase_abort (ca : Option Nat) (total : Nat) :
    ∀ (rs : List (Except String (String × List Nat))) (k count : Nat),
      ((∃ (i : Nat) (e : String), rs[i]? = some (Except.error e))
        ∨ ∃ c, ca = some c ∧ c ≤ k + rs.length) →
      ∃ m, (collectPhase ca total rs k count).2 = Except.error m := by
  intro rs
  induction rs with
  | nil =>
    intro k count h
    rcases h with ⟨i, e, hi⟩ | ⟨c, hc, hck⟩
    · simp at hi
    · simp only [List.length_nil, Nat.add_zero] at hck
      have : cancChk ca k = true := by simp [cancChk, hc]; omega
      exact ⟨cancelMsg, by simp [collectPhase, this]⟩
  | cons r rs ih =>
    intro k count h
    by_cases hk : cancChk ca k = true
    · exact ⟨cancelMsg, by simp [collectPhase, hk]⟩
    · cases r with
      | error e => exact ⟨e, by simp [collectPhase, hk]⟩
      | ok entry =>
        have h2 : (∃ (i : Nat) (e : String), rs[i]? = some (Except.error e))
            ∨ ∃ c, ca = some c ∧ c ≤ (k + 1) + rs.length := by
          rcases h with ⟨i, e, hi⟩ | ⟨c, hc, hck⟩
          · cases i with
            | zero => simp at hi
            | succ j => exact Or.inl ⟨j, e, by simpa using hi⟩
          · refine Or.inr ⟨c, hc, ?_⟩
            simp at hck
            omega
        obtain ⟨m, hm⟩ := ih (k + 1) (count + 1) h2
        refine ⟨m, ?_⟩
        simp [collectPhase, hk, hm, Except.map]

theorem collect_ok_none (total : Nat) :
    ∀ (entries : List (String × List Nat)) (k count : Nat),
      collectPhase none total (entries.map Except.ok) k count
        = ((natsFrom (count + 1) entries.length).map (fun c => CEvent.progress c total),
           Except.ok entries) := by
  intro entries
  induction entries with
  | nil => intro k count; rfl
  | cons e es ih =>
    intro k count
    show (if cancChk none k then _ else _) = _
    simp only [cancChk, Bool.false_eq_true, if_false]
    show (CEvent.progress (count + 1) total :: (collectPhase none total (es.map Except.ok) (k + 1) (count + 1)).1,
          (collectPhase none total (es.map Except.ok) (k + 1) (count + 1)).2.map (e :: ·)) = _
    rw [ih (k + 1) (count + 1)]
    simp [natsFrom, Except.map]

theorem writePhase_none : ∀ (es : List (String × List Nat)) (k : Nat),
    writePhase none es k = (es, true) := by
  intro es
  induction es with
  | nil => intro k; rfl
  | cons e es ih =>
    intro k
    show (if cancChk none k then _ else _) = _
    simp only [cancChk, Bool.false_eq_true, if_false]
    show (e :: (writePhase none es (k + 1)).1, (writePhase none es (k + 1)).2) = _
    rw [ih (k + 1)]

theorem collect_ok_cancel (total c : Nat) :
    ∀ (entries : List (String × List Nat)) (k count : Nat),
      (collectPhase (some c) total (entries.map Except.ok) k count).2
        = if c ≤ k + entries.length then Except.error cancelMsg else Except.ok entries := by
  intro entries
  induction entries with
  | nil =>
    intro k count
    by_cases h : c ≤ k
    · simp [collectPhase, cancChk, h]
    · simp [collectPhase, cancChk, h]
  | cons e es ih =>
    intro k count
    by_cases h : c ≤ k
    · have hchk : cancChk (some c) k = true := by simp [cancChk]; omega
      have : c ≤ k + (es.length + 1) := by omega
      simp [collectPhase, hchk, List.length_cons, this]
    · have hchk : cancChk (some c) k = false := by simp [cancChk]; omega
      simp only [List.map_cons, collectPhase, hchk, Bool.false_eq_true, if_false]
      rw [ih (k + 1) (count + 1)]
      by_cases h2 : c ≤ k + 1 + es.length
      · have h3 : c ≤ k + (es.length + 1) := by omega
        simp [h2, h3, Except.map]
      · have h3 : ¬ c ≤ k + (es.length + 1) := by omega
        simp [h2, h3, Except.map]

theorem writePhase_cancel_done (c : Nat) :
    ∀ (es : List (String × List Nat)) (k : Nat),
      ((writePhase (some c) es k).2 = true ↔ es = [] ∨ k + es.length ≤ c) := by
  intro es
  induction es with
  | nil => intro k; simp [writePhase]
  | cons e es ih =>
    intro k
    by_cases h : c ≤ k
    · have hchk : cancChk (some c) k = true := by simp [cancChk]; omega
      simp only [writePhase, hchk, if_true]
      simp
      omega
    · have hchk : cancChk (some c) k = false := by simp [cancChk]; omega
      simp only [writePhase, hchk, Bool.false_eq_true, if_false]
      rw [show (e :: (writePhase (some c) es (k + 1)).1, (writePhase (some c) es (k + 1)).2).2
          = (writePhase (some c) es (k + 1)).2 from rfl]
      rw [ih (k + 1)]
      constructor
      · rintro (rfl | h2)
        · exact Or.inr (by simp; omega)
        · exact Or.inr (by simp; omega)
      · rintro (h2 | h2)
        · exact absurd h2 (by simp)
        · exact Or.inr (by simp at h2 ⊢; omega)

/-! ## Deletion characterizations -/

theorem deleteLoop_events (removeRes : String → Except String Unit) (el : Nat → ℚ)
    (ca : Option Nat) (total : Nat) :
    ∀ (ps : List String) (i : Nat), ∃ n t, n ≤ ps.length ∧
      (deleteLoop removeRes el ca total ps i).1
        = (natsFrom (i + 1) n).map (dProg total el) ++ [t]
      ∧ DEvent.isTerminal t = true := by
  intro ps
  induction ps with
  | nil => intro i; exact ⟨0, DEvent.finished, by simp, by simp [deleteLoop, natsFrom], rfl⟩
  | cons p ps ih =>
    intro i
    by_cases h : cancChk ca i = true
    · exact ⟨0, DEvent.finished, by simp, by simp [deleteLoop, h, natsFrom], rfl⟩
    · cases hr : removeRes p with
      | error e =>
        exact ⟨0, DEvent.error ("파일 삭제 오류: " ++ p ++ " - " ++ e), by simp,
          by simp [deleteLoop, h, hr, natsFrom], rfl⟩
      | ok u =>
        obtain ⟨n, t, hn, he, ht⟩ := ih (i + 1)
        refine ⟨n + 1, t, by simp; omega, ?_, ht⟩
        simp only [deleteLoop, h, Bool.false_eq_true, if_false, hr, natsFrom, List.map_cons]
        rw [he]
        rfl

theorem deleteLoop_allok (el : Nat → ℚ) (ca : Option Nat) (total : Nat) :
    ∀ (ps : List String) (i : Nat), ∃ n, n ≤ ps.length ∧
      (deleteLoop (fun _ => Except.ok ()) el ca total ps i).1
        = (natsFrom (i + 1) n).map (dProg total el) ++ [DEvent.finished] := by
  intro ps
  induction ps with
  | nil => intro i; exact ⟨0, by simp, by simp [deleteLoop, natsFrom]⟩
  | cons p ps ih =>
    intro i
    by_cases h : cancChk ca i = true
    · exact ⟨0, by simp, by simp [deleteLoop, h, natsFrom]⟩
    · obtain ⟨n, hn, he⟩ := ih (i + 1)
      refine ⟨n + 1, by simp; omega, ?_⟩
      simp only [deleteLoop, h, Bool.false_eq_true, if_false, natsFrom, List.map_cons]
      rw [he]
      rfl

theorem deleteLoop_fail (removeRes : String → Except String Unit) (el : Nat → ℚ)
    (total : Nat) (p msg : String) (hp : removeRes p = Except.error msg) :
    ∀ (pre : List String) (post : List String) (i : Nat),
      (∀ q ∈ pre, removeRes q = Except.ok ()) →
      deleteLoop removeRes el none total (pre ++ p :: post) i
        = ((natsFrom (i + 1) pre.length).map (dProg total el)
            ++ [DEvent.error ("파일 삭제 오류: " ++ p ++ " - " ++ msg)], pre) := by
  intro pre
  induction pre with
  | nil =>
    intro post i hok
    simp only [List.nil_append, List.length_nil, natsFrom, List.map_nil, List.nil_append]
    simp [deleteLoop, cancChk, hp]
  | cons q pre ih =>
    intro post i hok
    have hq : removeRes q = Except.ok () := hok q (by simp)
    have hok2 : ∀ r ∈ pre, removeRes r = Except.ok () := fun r hr => hok r (by simp [hr])
    simp only [List.cons_append, deleteLoop, cancChk, Bool.false_eq_true, if_false, hq,
      List.append_eq]
    rw [ih post (i + 1) hok2]
    simp [natsFrom]

theorem isTerminal_not_zeroProgress (t : DEvent) (ht : DEvent.isTerminal t = true) :
    zeroCompletedProgress t = false := by
  cases t with
  | progress d tot a b c => simp [DEvent.isTerminal] at ht
  | finished => rfl
  | error m => rfl

theorem deletionRun_no_zero (paths : List String)
    (removeRes : String → Except String Unit) (el : Nat → ℚ) (ca : Option Nat) :
    ((deletionRun paths removeRes el ca).1.all (fun e => !zeroCompletedProgress e)) = true := by
  obtain ⟨n, t, hn, he, ht⟩ := deleteLoop_events removeRes el ca paths.length paths 0
  unfold deletionRun
  rw [he, List.all_eq_true]
  intro e hemem
  rw [List.mem_append] at hemem
  rcases hemem with hm | hm
  · rw [List.mem_map] at hm
    obtain ⟨d, hd, rfl⟩ := hm
    have := mem_natsFrom_ge n 1 d hd
    simp [dProg, zeroCompletedProgress]
    omega
  · simp only [List.mem_singleton] at hm
    subst hm
    simp [isTerminal_not_zeroProgress _ ht]

theorem isTerminal_curOf_none (t : DEvent) (ht : DEvent.isTerminal t = true) :
    DEvent.curOf t = none := by
  cases t with
  | progress d tot a b c => simp [DEvent.isTerminal] at ht
  | finished => rfl
  | error m => rfl

theorem compressionRun_shape (rs : List (Except String (String × List Nat)))
    (ca : Option Nat) (zp : String) :
    ∃ n t, n ≤ rs.length ∧
      (compressionRun rs ca zp).events
        = (natsFrom 1 n).map (fun c => CEvent.progress c rs.length) ++ [t]
      ∧ CEvent.isTerminal t = true := by
  obtain ⟨n, hn, he⟩ := collectPhase_events ca rs.length rs 0 0
  simp only [compressionRun]
  cases hres : (collectPhase ca rs.length rs 0 0).2 with
  | error e =>
    refine ⟨n, CEvent.error e, hn, ?_, rfl⟩
    simp only [hres]
    rw [he]
  | ok entries =>
    by_cases hw : (writePhase ca entries (rs.length + 1)).2 = true
    · refine ⟨n, CEvent.finished zp, hn, ?_, rfl⟩
      simp only [hres, hw, if_true]
      rw [he]
    · refine ⟨n, CEvent.error cancelMsg, hn, ?_, rfl⟩
      simp only [hres, hw, Bool.false_eq_true, if_false]
      rw [he]

/-- C4: for every run of each of the three workers — any inputs, any read or
removal outcomes, any cancellation point — the emitted progress events are
monotonically non-decreasing in `current`, every progress event satisfies
`current ≤ total`, exactly one terminal event is emitted, and the terminal
event is the last event. -/
theorem c4_progress_guarantees :
    ∀ (files : List SFile) (content : String → ReadRes) (term : String) (ca : Option Nat)
      (rs : List (Except String (String × List Nat))) (ca2 : Option Nat) (zp : String)
      (paths : List String) (removeRes : String → Except String Unit) (el : Nat → ℚ)
      (ca3 : Option Nat),
      progOK SEvent.curOf SEvent.isTerminal files.length (searchRun files content term ca) = true
      ∧ progOK CEvent.curOf CEvent.isTerminal rs.length (compressionRun rs ca2 zp).events = true
      ∧ progOK DEvent.curOf DEvent.isTerminal paths.length
          ((deletionRun paths removeRes el ca3).1) = true := by
  intro files content term ca rs ca2 zp paths removeRes el ca3
  refine ⟨?_, ?_, ?_⟩
  · obtain ⟨n, hn, he⟩ := searchLoop_events (pyLower term) ca content files.length files 0 0
    unfold searchRun
    rw [he]
    exact progOK_shape SEvent.curOf SEvent.isTerminal files.length
      (fun c => SEvent.progress c files.length) (fun c => rfl) (fun c => rfl)
      (SEvent.finished (searchResults files content term ca)) rfl rfl n hn
  · obtain ⟨n, t, hn, he, ht⟩ := compressionRun_shape rs ca2 zp
    rw [he]
    have hcur : CEvent.curOf t = none := by
      cases t with
      | progress c tot => simp [CEvent.isTerminal] at ht
      | finished p => rfl
      | error m => rfl
    exact progOK_shape CEvent.curOf CEvent.isTerminal rs.length
      (fun c => CEvent.progress c rs.length) (fun c => rfl) (fun c => rfl) t hcur ht n hn
  · obtain ⟨n, t, hn, he, ht⟩ := deleteLoop_events removeRes el ca3 paths.length paths 0
    unfold deletionRun
    rw [he]
    exact progOK_shape DEvent.curOf DEvent.isTerminal paths.length
      (dProg paths.length el) (fun c => rfl) (fun c => rfl) t
      (isTerminal_curOf_none t ht) ht n hn

/-- C1 (amended): a run cancelled at any point still emits exactly one
terminal event and it is the last event; but only the Compress worker turns
cancellation into a failure with the cancellation reason — a cancelled Search
run ends with the normal success terminal `finished` (carrying the truncated
results), and a cancelled Delete run (no removal failures) ends with the
normal success terminal `finished`. -/
theorem c1_cancelled_terminal :
    (∀ (files : List SFile) (content : String → ReadRes) (term : String) (ca : Option Nat),
        (searchRun files content term ca).getLast?
          = some (SEvent.finished (searchResults files content term ca))
        ∧ (searchRun files content term ca).countP SEvent.isTerminal = 1)
    ∧ (∀ (paths : List String) (el : Nat → ℚ) (c : Nat),
        ((deletionRun paths (fun _ => Except.ok ()) el (some c)).1).getLast?
          = some DEvent.finished
        ∧ ((deletionRun paths (fun _ => Except.ok ()) el (some c)).1).countP
            DEvent.isTerminal = 1)
    ∧ (∀ (entries : List (String × List Nat)) (zp : String) (c : Nat),
        (compressionRun (entries.map Except.ok) (some c) zp).events.getLast?
          = some (if c ≤ 2 * entries.length then CEvent.error cancelMsg
                  else CEvent.finished zp)
        ∧ (compressionRun (entries.map Except.ok) (some c) zp).events.countP
            CEvent.isTerminal = 1) := by
  refine ⟨?_, ?_, ?_⟩
  · intro files content term ca
    obtain ⟨n, hn, he⟩ := searchLoop_events (pyLower term) ca content files.length files 0 0
    constructor
    · unfold searchRun
      rw [lastAppendSingle]
    · unfold searchRun
      rw [he]
      exact countP_shape SEvent.isTerminal (fun c2 => SEvent.progress c2 files.length)
        (fun c2 => rfl) (SEvent.finished (searchResults files content term ca)) rfl _
  · intro paths el c
    obtain ⟨n, hn, he⟩ := deleteLoop_allok el (some c) paths.length paths 0
    unfold deletionRun
    rw [he]
    constructor
    · rw [lastAppendSingle]
    · exact countP_shape DEvent.isTerminal (dProg paths.length el)
        (fun c2 => rfl) DEvent.finished rfl _
  · intro entries zp c
    have hcol := collect_ok_cancel (entries.map (Except.ok (ε := String))).length c entries 0 0
    simp only [Nat.zero_add, List.length_map] at hcol
    obtain ⟨n, hn, he⟩ := collectPhase_events (some c)
      (entries.map (Except.ok (ε := String))).length (entries.map Except.ok) 0 0
    simp only [List.length_map] at he hn
    have hwiff := writePhase_cancel_done c entries (entries.length + 1)
    by_cases hc : c ≤ entries.length
    · rw [if_pos hc] at hcol
      have h2 : c ≤ 2 * entries.length := by omega
      constructor
      · simp only [compressionRun, List.length_map, hcol]
        rw [he, lastAppendSingle, if_pos h2]
      · simp only [compressionRun, List.length_map, hcol]
        rw [he]
        exact countP_shape CEvent.isTerminal
          (fun c2 => CEvent.progress c2 entries.length)
          (fun c2 => rfl) (CEvent.error cancelMsg) rfl _
    · rw [if_neg hc] at hcol
      by_cases hw : (writePhase (some c) entries (entries.length + 1)).2 = true
      · have hnot : ¬ c ≤ 2 * entries.length := by
          rcases hwiff.mp hw with rfl | hge
          · simp only [List.length_nil] at hc ⊢
            omega
          · omega
        constructor
        · simp only [compressionRun, List.length_map, hcol, hw, if_true]
          rw [he, lastAppendSingle, if_neg hnot]
        · simp only [compressionRun, List.length_map, hcol, hw, if_true]
          rw [he]
          exact countP_shape CEvent.isTerminal
            (fun c2 => CEvent.progress c2 entries.length)
            (fun c2 => rfl) (CEvent.finished zp) rfl _
      · have h2 : c ≤ 2 * entries.length := by
          by_contra hcon
          exact hw (hwiff.mpr (Or.inr (by omega)))
        constructor
        · simp only [compressionRun, List.length_map, hcol, hw, Bool.false_eq_true, if_false]
          rw [he, lastAppendSingle, if_pos h2]
        · simp only [compressionRun, List.length_map, hcol, hw, Bool.false_eq_true, if_false]
          rw [he]
          exact countP_shape CEvent.isTerminal
            (fun c2 => CEvent.progress c2 entries.length)
            (fun c2 => rfl) (CEvent.error cancelMsg) rfl _

/-- C1 counterexample: a Search run cancelled before processing its one file,
and a Delete run cancelled before its first removal, both end with the
success terminal `finished` — not a failure carrying a cancellation reason
(the SearchWorker has no error signal at all). -/
theorem c1_counterexample :
    searchRun [⟨"/r/a.txt", "a.txt", "a.txt"⟩] (fun _ => ReadRes.ok []) "a" (some 0)
      = [SEvent.finished []]
    ∧ (deletionRun ["p"] (fun _ => Except.ok ()) (fun _ => 0) (some 0)).1
      = [DEvent.finished] :=
  ⟨by decide, by decide⟩

/-- C2 (amended): each start routine disables only the triggering button of
its own task kind and leaves the other kinds' controls untouched, so a second
click of the same button cannot start another worker of that kind — but
nothing prevents a worker of a different kind from starting. -/
theorem c2_per_button_enforcement :
    ∀ s : UI,
      (stepUI UAction.clickSearchBtn (stepUI UAction.clickSearchBtn s)).workers.length
          ≤ s.workers.length + 1
      ∧ (stepUI UAction.clickCompressBtn (stepUI UAction.clickCompressBtn s)).workers.length
          ≤ s.workers.length + 1
      ∧ (stepUI UAction.clickDeleteBtn (stepUI UAction.clickDeleteBtn s)).workers.length
          ≤ s.workers.length + 1
      ∧ (stepUI UAction.clickSearchBtn s).compressBtn = s.compressBtn
      ∧ (stepUI UAction.clickSearchBtn s).deleteBtns = s.deleteBtns
      ∧ (stepUI UAction.clickCompressBtn s).searchBtn = s.searchBtn
      ∧ (stepUI UAction.clickCompressBtn s).deleteBtns = s.deleteBtns
      ∧ (stepUI UAction.clickDeleteBtn s).searchBtn = s.searchBtn
      ∧ (stepUI UAction.clickDeleteBtn s).compressBtn = s.compressBtn := by
  intro s
  obtain ⟨sb, cb, db, ws⟩ := s
  cases sb <;> cases cb <;> cases db <;>
    simp [stepUI, startSearchUI]

/-- C2 counterexample: from the initial state, clicking the search button and
then the compress button leaves two workers active at once — during the
search run the compress and delete triggers are still enabled. -/
theorem c2_counterexample :
    (runUI [UAction.clickSearchBtn, UAction.clickCompressBtn] initUI).workers.length = 2
    ∧ (stepUI UAction.clickSearchBtn initUI).compressBtn = true
    ∧ (stepUI UAction.clickSearchBtn initUI).deleteBtns = true := by
  decide

/-- C3 (amended): if any read fails, or cancellation is observed at one of
the checks that precede opening the archive (check numbers up to the count of
reads), the run aborts with an error event as its last event and no archive
file is created at the destination.  (Cancellation first observed between
entry writes, after the archive is opened, still aborts with an error but
leaves the partially written file on disk — see the counterexample.) -/
theorem c3_no_partial_archive_before_open :
    ∀ (rs : List (Except String (String × List Nat))) (ca : Option Nat) (zp : String),
      ((∃ (i : Nat) (e : String), rs[i]? = some (Except.error e))
        ∨ ∃ c, ca = some c ∧ c ≤ rs.length) →
      (compressionRun rs ca zp).zipFile = none
      ∧ ∃ m, (compressionRun rs ca zp).events.getLast? = some (CEvent.error m) := by
  intro rs ca zp h
  have h2 : (∃ (i : Nat) (e : String), rs[i]? = some (Except.error e))
      ∨ ∃ c, ca = some c ∧ c ≤ 0 + rs.length := by
    rcases h with h | ⟨c, hc, hck⟩
    · exact Or.inl h
    · exact Or.inr ⟨c, hc, by omega⟩
  obtain ⟨m, hm⟩ := collectPhase_abort ca rs.length rs 0 0 h2
  refine ⟨?_, m, ?_⟩
  · simp only [compressionRun, hm]
  · simp only [compressionRun, hm]
    rw [lastAppendSingle]

theorem c3_witness :
    (compressionRun [Except.error "boom"] none "z.zip").zipFile = none
    ∧ ∃ m, (compressionRun [Except.error "boom"] none "z.zip").events.getLast?
        = some (CEvent.error m) :=
  c3_no_partial_archive_before_open [Except.error "boom"] none "z.zip"
    (Or.inl ⟨0, "boom", rfl⟩)

/-- C3 counterexample: one file whose read succeeds, with cancellation first
observed at check number 2 — the check inside the `writestr` loop, after
`zipfile.ZipFile(zip_path, 'w')` has created the file.  The run emits the
cancellation error, yet the destination file exists on disk
(`zipFile = some []`, an empty partial archive), contradicting "not even a
partial one is left on disk" for cancelled runs. -/
theorem c3_counterexample :
    compressionRun [Except.ok ("a", [1])] (some 2) "z.zip"
      = ⟨[CEvent.progress 1 1, CEvent.error cancelMsg], some []⟩ := by
  decide

/-- C5 (amended): in an uncancelled search, a successfully read file is
reported as matched iff the term is a case-insensitive substring of the
file's *base* name (`os.path.basename`, not the relative-path display name)
or of at least one of its lines; the per-file results are delivered in the
single `finished` event. -/
theorem c5_matched_iff :
    ∀ (files : List SFile) (content : String → ReadRes) (term : String)
      (i : Nat) (f : SFile) (lines : List String),
      files[i]? = some f → content f.fullPath = ReadRes.ok lines →
      (searchRun files content term none).getLast?
        = some (SEvent.finished (searchResults files content term none))
      ∧ ((searchResults files content term none)[i]?).map Prod.fst
          = some (icontains term f.baseName || lines.any (fun l => icontains term l)) := by
  intro files content term i f lines hf hc
  constructor
  · unfold searchRun
    rw [lastAppendSingle]
  · unfold searchResults
    rw [searchLoop_none_results, List.getElem?_map, hf]
    simp only [Option.map_some']
    unfold fileResult
    rw [hc]
    show some (pyIn (pyLower term) (pyLower f.baseName)
        || !(collectMatches (pyLower term) 1 lines).isEmpty) = _
    rw [collectMatches_any]
    rfl

theorem c5_witness :
    (searchRun [⟨"/r/sub/a.txt", "sub/a.txt", "a.txt"⟩] (fun _ => ReadRes.ok [])
        "sub" none).getLast?
      = some (SEvent.finished (searchResults [⟨"/r/sub/a.txt", "sub/a.txt", "a.txt"⟩]
          (fun _ => ReadRes.ok []) "sub" none))
    ∧ ((searchResults [⟨"/r/sub/a.txt", "sub/a.txt", "a.txt"⟩] (fun _ => ReadRes.ok [])
          "sub" none)[0]?).map Prod.fst
        = some (icontains "sub" (SFile.mk "/r/sub/a.txt" "sub/a.txt" "a.txt").baseName
                || ([] : List String).any (fun l => icontains "sub" l)) :=
  c5_matched_iff [⟨"/r/sub/a.txt", "sub/a.txt", "a.txt"⟩] (fun _ => ReadRes.ok []) "sub" 0
    ⟨"/r/sub/a.txt", "sub/a.txt", "a.txt"⟩ [] rfl rfl

/-- C5 counterexample: a nested file with display name "sub/a.txt" (shown in
the tree) but base name "a.txt", empty content, searched for "sub".  The term
is a case-insensitive substring of the display name, so the claim predicts a
match, but the run reports the file as not matched: the code matches against
`os.path.basename`, not the display name. -/
theorem c5_counterexample :
    searchResults [⟨"/r/sub/a.txt", "sub/a.txt", "a.txt"⟩] (fun _ => ReadRes.ok [])
        "sub" none = [(false, [])]
    ∧ icontains "sub" (SFile.mk "/r/sub/a.txt" "sub/a.txt" "a.txt").displayName = true := by
  decide

/-- C6 (amended): a file whose content read raises is reported with exactly
the line matches collected from the lines yielded before the failure (zero
when nothing was yielded), and its matched flag comes solely from the
*base-name* check — the line matches collected before the failure do not set
it; the error is swallowed and the scan continues (one result per file). -/
theorem c6_read_failure :
    ∀ (files : List SFile) (content : String → ReadRes) (term : String)
      (i : Nat) (f : SFile) (lines : List String),
      files[i]? = some f → content f.fullPath = ReadRes.failAfter lines →
      (searchResults files content term none)[i]?
        = some (icontains term f.baseName, collectMatches (pyLower term) 1 lines)
      ∧ (searchResults files content term none).length = files.length := by
  intro files content term i f lines hf hc
  constructor
  · unfold searchResults
    rw [searchLoop_none_results, List.getElem?_map, hf]
    simp only [Option.map_some']
    unfold fileResult
    rw [hc]
    rfl
  · unfold searchResults
    rw [searchLoop_none_results, List.length_map]

theorem c6_witness :
    (searchResults [⟨"/q/b.bin", "b.bin", "b.bin"⟩] (fun _ => ReadRes.failAfter ["hello"])
        "hello" none)[0]?
      = some (icontains "hello" (SFile.mk "/q/b.bin" "b.bin" "b.bin").baseName,
              collectMatches (pyLower "hello") 1 ["hello"])
    ∧ (searchResults [⟨"/q/b.bin", "b.bin", "b.bin"⟩] (fun _ => ReadRes.failAfter ["hello"])
        "hello" none).length = 1 :=
  c6_read_failure [⟨"/q/b.bin", "b.bin", "b.bin"⟩] (fun _ => ReadRes.failAfter ["hello"])
    "hello" 0 ⟨"/q/b.bin", "b.bin", "b.bin"⟩ ["hello"] rfl rfl

/-- C6 counterexample: a file whose read fails after yielding the line
"sub data", searched for "sub".  The claim predicts zero line matches and a
matched flag from the display-name check ("sub/a.bin" contains "sub", so
matched = true); the run instead reports one line match and matched = false
(base name "a.bin" does not contain "sub"). -/
theorem c6_counterexample :
    searchResults [⟨"/r/sub/a.bin", "sub/a.bin", "a.bin"⟩]
        (fun _ => ReadRes.failAfter ["sub data"]) "sub" none
      = [(false, [(1, "sub data")])]
    ∧ icontains "sub" (SFile.mk "/r/sub/a.bin" "sub/a.bin" "a.bin").displayName = true := by
  decide

/-- C7: the first removal failure stops the delete run immediately — the
events are exactly the progress events for the successful removals followed
by one error event naming the failing path and the underlying message; no
`finished` (success) event is emitted, and exactly the files before the
failure have been removed (no rollback, the failing file and the rest are
never attempted). -/
theorem c7_first_failure_stops :
    ∀ (pre post : List String) (p msg : String)
      (removeRes : String → Except String Unit) (el : Nat → ℚ),
      (∀ q ∈ pre, removeRes q = Except.ok ()) → removeRes p = Except.error msg →
      (deletionRun (pre ++ p :: post) removeRes el none).1
        = (natsFrom 1 pre.length).map (dProg (pre ++ p :: post).length el)
          ++ [DEvent.error ("파일 삭제 오류: " ++ p ++ " - " ++ msg)]
      ∧ (deletionRun (pre ++ p :: post) removeRes el none).2 = pre
      ∧ DEvent.finished ∉ (deletionRun (pre ++ p :: post) removeRes el none).1 := by
  intro pre post p msg removeRes el hok hp
  have h := deleteLoop_fail removeRes el (pre ++ p :: post).length p msg hp pre post 0 hok
  unfold deletionRun
  rw [h]
  refine ⟨rfl, rfl, ?_⟩
  intro hmem
  rcases List.mem_append.mp hmem with hm | hm
  · obtain ⟨d, hd, heq⟩ := List.mem_map.mp hm
    simp [dProg] at heq
  · simp at hm

theorem c7_witness :
    (deletionRun ["a", "b", "c"] rrW (fun _ => 0) none).1
      = (natsFrom 1 1).map (dProg 3 (fun _ => 0))
        ++ [DEvent.error ("파일 삭제 오류: " ++ "b" ++ " - " ++ "denied")]
    ∧ (deletionRun ["a", "b", "c"] rrW (fun _ => 0) none).2 = ["a"]
    ∧ DEvent.finished ∉ (deletionRun ["a", "b", "c"] rrW (fun _ => 0) none).1 := by
  have h := c7_first_failure_stops ["a"] ["c"] "b" "denied" rrW (fun _ => 0)
    (by intro q hq; simp only [List.mem_singleton] at hq; subst hq; simp [rrW])
    (by simp [rrW])
  exact h

/-- C8: a successful compression of N (sourcePath, archiveEntryName) pairs —
the reads completing in any order `rs` (a permutation of the input list) —
produces an archive holding exactly N entries whose stored bytes are, entry
name by entry name, the corresponding source file's contents. -/
theorem c8_archive_contents :
    ∀ (files rs : List (String × String)) (content : String → List Nat) (zp : String),
      rs.Perm files →
      (compressionRun (rs.map (fun pa => read_file false pa.1 pa.2
          (fun p => Except.ok (content p)))) none zp).zipFile
        = some (rs.map (fun pa => (pa.2, content pa.1)))
      ∧ (rs.map (fun pa => (pa.2, content pa.1))).Perm
          (files.map (fun pa => (pa.2, content pa.1)))
      ∧ (rs.map (fun pa => (pa.2, content pa.1))).length = files.length := by
  intro files rs content zp hperm
  have hmap : rs.map (fun pa => read_file false pa.1 pa.2 (fun p => Except.ok (content p)))
      = (rs.map (fun pa => (pa.2, content pa.1))).map Except.ok := by
    rw [List.map_map]
    rfl
  refine ⟨?_, hperm.map _, by rw [List.length_map, hperm.length_eq]⟩
  rw [hmap]
  have hcol := collect_ok_none
    (((rs.map (fun pa => (pa.2, content pa.1))).map (Except.ok (ε := String))).length)
    (rs.map (fun pa => (pa.2, content pa.1))) 0 0
  simp only [compressionRun, hcol, writePhase_none, if_true]

/-- C9 (amended): no delete run ever evaluates the remaining-time estimate
with `completed = 0` — every progress event carries `deleted = i + 1 ≥ 1`
(progress is emitted only after a successful removal), and the code guards
the average with `elapsed / deleted if deleted else 0` besides. -/
theorem c9_no_zero_completed :
    ∀ (paths : List String) (removeRes : String → Except String Unit) (el : Nat → ℚ)
      (ca : Option Nat),
      ((deletionRun paths removeRes el ca).1.all
        (fun e => !zeroCompletedProgress e)) = true :=
  deletionRun_no_zero

/-- C9 counterexample: the claim — that some delete run evaluates the
remaining-time computation with `completed = 0` — is false: no run of the
deletion worker, over any inputs, removal outcomes, timings or cancellation
point, emits a progress event with `deleted = 0`. -/
theorem c9_counterexample : C9claim = False :=
  eq_false (by
    rintro ⟨paths, removeRes, el, ca, hany⟩
    rw [List.any_eq_true] at hany
    obtain ⟨e, he, hze⟩ := hany
    have hall := deletionRun_no_zero paths removeRes el ca
    rw [List.all_eq_true] at hall
    have hne := hall e he
    rw [hze] at hne
    exact absurd hne (by decide))

/-- C10: a delete run over an empty path list emits the success terminal
immediately — no progress events, no error, nothing removed — for any removal
outcomes, timings, and cancellation point. -/
theorem c10_empty_delete :
    ∀ (removeRes : String → Except String Unit) (el : Nat → ℚ) (ca : Option Nat),
      deletionRun [] removeRes el ca = ([DEvent.finished], []) := by
  intro removeRes el ca
  rfl

theorem c8_witness :
    (compressionRun ([("p2", "a2"), ("p1", "a1")].map
        (fun pa => read_file false pa.1 pa.2 (fun p => Except.ok (contentW p))))
        none "z.zip").zipFile
      = some ([("p2", "a2"), ("p1", "a1")].map (fun pa => (pa.2, contentW pa.1)))
    ∧ ([("p2", "a2"), ("p1", "a1")].map (fun pa => (pa.2, contentW pa.1))).Perm
        ([("p1", "a1"), ("p2", "a2")].map (fun pa => (pa.2, contentW pa.1)))
    ∧ ([("p2", "a2"), ("p1", "a1")].map (fun pa => (pa.2, contentW pa.1))).length
        = [("p1", "a1"), ("p2", "a2")].length :=
  c8_archive_contents [("p1", "a1"), ("p2", "a2")] [("p2", "a2"), ("p1", "a1")]
    contentW "z.zip" (List.Perm.swap ("p1", "a1") ("p2", "a2") [])
